import Mathlib

/-!
Verification of the trader-AI repository against its natural-language
specification.

Shallow embedding conventions:
* Python floats are modelled as rationals (`ℚ`); `dict.get(k, d)` on a
  possibly-missing key is modelled by `Option` fields read with `Option.getD`.
* Python's substring test `needle in hay` is modelled by `pySubstr`,
  a structural-recursion infix test on the underlying character lists.
* Python's `round(x, n)` (round-half-to-even) is modelled by `pyRound`.
* Fallible code returns `Except`/`Option`.
Each section names the source file and function it embeds.
-/

namespace TraderAI

/-- Character-list prefix test (structural recursion, kernel-reducible). -/
def isPrefixCh : List Char → List Char → Bool
  | [], _ => true
  | _ :: _, [] => false
  | a :: as, b :: bs => a == b && isPrefixCh as bs

/-- Character-list infix test. -/
def containsSub (needle : List Char) : List Char → Bool
  | [] => needle.isEmpty
  | b :: bs => isPrefixCh needle (b :: bs) || containsSub needle bs

/-- Python's `needle in hay` substring test on strings. -/
def pySubstr (needle hay : String) : Bool :=
  containsSub needle.data hay.data

/-- Round a rational to the nearest integer, ties to even
(the rounding used by Python's builtin `round`). -/
def roundHalfEven (q : ℚ) : ℤ :=
  let n := ⌊q⌋
  let f := q - (n : ℚ)
  if f < 1/2 then n
  else if 1/2 < f then n + 1
  else if n % 2 = 0 then n else n + 1

/-- Python's `round(x, ndigits)` on our rational model of floats. -/
def pyRound (ndigits : ℕ) (x : ℚ) : ℚ :=
  (roundHalfEven (x * 10 ^ ndigits) : ℚ) / 10 ^ ndigits

theorem roundHalfEven_nonneg {q : ℚ} (hq : 0 ≤ q) : 0 ≤ roundHalfEven q := by
  unfold roundHalfEven
  have h0 : (0 : ℤ) ≤ ⌊q⌋ := Int.le_floor.mpr (by simpa using hq)
  dsimp only
  split
  · exact h0
  · split
    · omega
    · split <;> omega

theorem roundHalfEven_le {q : ℚ} {M : ℤ} (hq : q ≤ M) : roundHalfEven q ≤ M := by
  unfold roundHalfEven
  have hfl : ⌊q⌋ ≤ M := by
    have h := Int.floor_le_floor hq
    simpa using h
  dsimp only
  split
  · exact hfl
  · rename_i hlt
    push_neg at hlt
    have hq2 : (⌊q⌋ : ℚ) ≤ q - 1/2 := by linarith
    have hltM : (⌊q⌋ : ℚ) < (M : ℚ) := by linarith
    have hstrict : ⌊q⌋ < M := by exact_mod_cast hltM
    split
    · omega
    · split <;> omega

theorem pyRound_nonneg {x : ℚ} (hx : 0 ≤ x) (n : ℕ) : 0 ≤ pyRound n x := by
  unfold pyRound
  have h1 : (0 : ℤ) ≤ roundHalfEven (x * 10 ^ n) :=
    roundHalfEven_nonneg (by positivity)
  have h2 : (0 : ℚ) ≤ (roundHalfEven (x * 10 ^ n) : ℚ) := by exact_mod_cast h1
  positivity

theorem pyRound_le_of_le {x : ℚ} (M : ℤ) (hx : x ≤ M) (n : ℕ) :
    pyRound n x ≤ M := by
  unfold pyRound
  have h1 : roundHalfEven (x * 10 ^ n) ≤ M * 10 ^ n := by
    apply roundHalfEven_le
    push_cast
    have hp : (0 : ℚ) < 10 ^ n := by positivity
    nlinarith
  have h2 : (roundHalfEven (x * 10 ^ n) : ℚ) ≤ (M : ℚ) * 10 ^ n := by
    exact_mod_cast h1
  have hp : (0 : ℚ) < 10 ^ n := by positivity
  rw [div_le_iff₀ hp]
  simpa using h2

/-!
## C1 — `src/stock_screener/screener.py`: `StockScreener.screen` / `_match`

A stock is a Python dict; the keys `_match` reads are modelled as `Option`
fields (a missing key yields the `dict.get` default used at the read site).
-/

/-- A stock dict as consumed by `StockScreener._match` and
`WebAppManager.save_recommendations` (`src/backend/app.py`). -/
structure Stock where
  symbol : Option String := none
  stock_name : Option String := none
  market : Option String := none
  current_price : Option ℚ := none
  total_score : Option ℚ := none
  tech_score : Option ℚ := none
  auction_score : Option ℚ := none
  auction_chg : Option ℚ := none      -- key 'auction_ratio'
  gap_type : Option String := none
  confidence : Option String := none
  rsi : Option ℚ := none
  market_cap_billion : Option ℚ := none
  strategy : Option String := none
  entry_price : Option ℚ := none
  stop_loss : Option ℚ := none
  target_price : Option ℚ := none
  deriving DecidableEq, Repr

/-- The conditions dict of `StockScreener.screen`.  A list-valued condition
that is absent or empty is falsy in Python, so both are modelled as `[]`. -/
structure ScreenConditions where
  price_min : Option ℚ := none
  price_max : Option ℚ := none
  total_score_min : Option ℚ := none
  total_score_max : Option ℚ := none
  tech_score_min : Option ℚ := none
  tech_score_max : Option ℚ := none
  auction_score_min : Option ℚ := none
  auction_score_max : Option ℚ := none
  auction_chg_min : Option ℚ := none  -- key 'auction_ratio_min'
  auction_chg_max : Option ℚ := none  -- key 'auction_ratio_max'
  rsi_min : Option ℚ := none
  rsi_max : Option ℚ := none
  market_cap_min : Option ℚ := none
  market_cap_max : Option ℚ := none
  gap_types : List String := []
  confidence_levels : List String := []
  markets : List String := []
  keyword : String := ""
  deriving Repr

/-- `if conditions.get(k) is not None and v < bound: return False` -/
def undershoots (bound : Option ℚ) (v : ℚ) : Bool :=
  bound.elim false (fun b => v < b)

/-- `if conditions.get(k) is not None and v > bound: return False` -/
def overshoots (bound : Option ℚ) (v : ℚ) : Bool :=
  bound.elim false (fun b => b < v)

/-- `if lst and stock.get(k) not in lst: return False` — a `None` field is
never a member of a list of strings. -/
def memberOfList (field : Option String) (lst : List String) : Bool :=
  lst.isEmpty || field.elim false (fun s => lst.contains s)

namespace StockScreener

/-- `StockScreener._match` (screener.py lines 135–210): every present
condition must hold. -/
def matchStock (stock : Stock) (conditions : ScreenConditions) : Bool :=
  let price := stock.current_price.getD 0
  let total_score := stock.total_score.getD 0
  let tech_score := stock.tech_score.getD 0
  let auction_score := stock.auction_score.getD 0
  let auction_chg := stock.auction_chg.getD 0
  let rsi := stock.rsi.getD 50
  let market_cap := stock.market_cap_billion.getD 0
  let keyword := conditions.keyword.trim
  !undershoots conditions.price_min price &&
  !overshoots conditions.price_max price &&
  !undershoots conditions.total_score_min total_score &&
  !overshoots conditions.total_score_max total_score &&
  !undershoots conditions.tech_score_min tech_score &&
  !overshoots conditions.tech_score_max tech_score &&
  !undershoots conditions.auction_score_min auction_score &&
  !overshoots conditions.auction_score_max auction_score &&
  !undershoots conditions.auction_chg_min auction_chg &&
  !overshoots conditions.auction_chg_max auction_chg &&
  !undershoots conditions.rsi_min rsi &&
  !overshoots conditions.rsi_max rsi &&
  !undershoots conditions.market_cap_min market_cap &&
  !overshoots conditions.market_cap_max market_cap &&
  memberOfList stock.gap_type conditions.gap_types &&
  memberOfList stock.confidence conditions.confidence_levels &&
  memberOfList stock.market conditions.markets &&
  (keyword == "" ||
    pySubstr keyword (stock.symbol.getD "") ||
    pySubstr keyword (stock.stock_name.getD ""))

/-- Sort key of `results.sort(key=lambda x: x.get('total_score', 0), reverse=True)`. -/
def totalScoreD (s : Stock) : ℚ := s.total_score.getD 0

/-- Descending comparison used to model the stable reverse sort. -/
def byScoreDesc (a b : Stock) : Bool := decide (totalScoreD b ≤ totalScoreD a)

/-- `StockScreener.screen` (screener.py lines 84–99): keep the stocks that
`_match` accepts, then stable-sort them by `total_score` descending. -/
def screen (stock_list : List Stock) (conditions : ScreenConditions) : List Stock :=
  (stock_list.filter (fun s => matchStock s conditions)).mergeSort byScoreDesc

theorem byScoreDesc_trans (a b c : Stock) :
    byScoreDesc a b = true → byScoreDesc b c = true → byScoreDesc a c = true := by
  simp only [byScoreDesc, decide_eq_true_eq]
  intro h1 h2
  exact le_trans h2 h1

theorem byScoreDesc_total (a b : Stock) :
    (byScoreDesc a b || byScoreDesc b a) = true := by
  simp only [byScoreDesc, Bool.or_eq_true, decide_eq_true_eq]
  exact le_total (totalScoreD b) (totalScoreD a)

end StockScreener

/-- C1: `StockScreener.screen` returns exactly the input stocks accepted by
`_match` (as a list: a permutation of the matching sublist, hence the same
members), ordered by `total_score` descending. -/
theorem C1_screen_filters_and_sorts (l : List Stock) (c : ScreenConditions) :
    (∀ s : Stock, s ∈ StockScreener.screen l c ↔
        s ∈ l ∧ StockScreener.matchStock s c = true) ∧
    (StockScreener.screen l c).Perm
      (l.filter (fun s => StockScreener.matchStock s c)) ∧
    List.Sorted (fun a b => StockScreener.totalScoreD b ≤ StockScreener.totalScoreD a)
      (StockScreener.screen l c) := by
  refine ⟨?_, ?_, ?_⟩
  · intro s
    rw [StockScreener.screen, List.mem_mergeSort, List.mem_filter]
  · exact List.mergeSort_perm _ _
  · have h := List.sorted_mergeSort
      StockScreener.byScoreDesc_trans
      StockScreener.byScoreDesc_total
      (l.filter (fun s => StockScreener.matchStock s c))
    rw [StockScreener.screen]
    refine List.Pairwise.imp ?_ h
    intro a b hab
    simpa [StockScreener.byScoreDesc] using hab

/-!
## C2 — `src/stock_screener/analyzer/engine.py`: `StockAnalysisEngine.analyze`

Only the rule-scoring loop (lines 315–342) matters for the claim.  A rule's
`evaluate` may raise, modelled by `Except`; its result dict is read with
`res.get('score', 50)`, modelled by an `Option` score field.  `rule_results`
is a dict written once per rule in loop order, modelled as the list of
records in that order.
-/

namespace StockAnalysisEngine

/-- Result dict of a rule's `evaluate`; `score` is read via `get('score', 50)`. -/
structure EvalOut where
  score : Option ℚ := none
  details : String := ""

/-- An analysis rule as the engine sees it (`base_rule.BaseAnalysisRule`):
an id, a display name, a weight and a fallible `evaluate`. -/
structure EngineRule (Ctx : Type) where
  rule_id : String
  name : String
  weight : ℚ
  evaluate : Ctx → Except String EvalOut

/-- One entry of `rule_results`. -/
structure RuleRecord where
  rule_id : String
  name : String
  score : ℚ
  weight : ℚ
  deriving DecidableEq

/-- Accumulator of the scoring loop. -/
structure ScoreAcc where
  rule_results : List RuleRecord
  weighted_sum : ℚ
  weight_total : ℚ
  deriving DecidableEq

/-- One iteration of the rule loop (engine.py lines 321–340): on success the
score counts iff the weight is positive; on an exception the rule is recorded
with score 50 and contributes nothing. -/
def evalStep {Ctx : Type} (ctx : Ctx) (acc : ScoreAcc) (rule : EngineRule Ctx) :
    ScoreAcc :=
  match rule.evaluate ctx with
  | .ok res =>
      let s := res.score.getD 50
      let w := rule.weight
      { rule_results := acc.rule_results ++ [⟨rule.rule_id, rule.name, s, w⟩],
        weighted_sum := if 0 < w then acc.weighted_sum + s * w else acc.weighted_sum,
        weight_total := if 0 < w then acc.weight_total + w else acc.weight_total }
  | .error _ =>
      { rule_results := acc.rule_results ++ [⟨rule.rule_id, rule.name, 50, rule.weight⟩],
        weighted_sum := acc.weighted_sum,
        weight_total := acc.weight_total }

/-- The whole rule loop of `analyze`. -/
def runRules {Ctx : Type} (rules : List (EngineRule Ctx)) (ctx : Ctx) : ScoreAcc :=
  rules.foldl (evalStep ctx) ⟨[], 0, 0⟩

/-- `comprehensive = weighted_sum / weight_total if weight_total > 0 else 50.0`
(engine.py line 342). -/
def comprehensiveScore {Ctx : Type} (rules : List (EngineRule Ctx)) (ctx : Ctx) : ℚ :=
  let acc := runRules rules ctx
  if 0 < acc.weight_total then acc.weighted_sum / acc.weight_total else 50

/-- `'comprehensive_score': round(comprehensive, 1)` (engine.py line 373). -/
def reportedComprehensiveScore {Ctx : Type} (rules : List (EngineRule Ctx))
    (ctx : Ctx) : ℚ :=
  pyRound 1 (comprehensiveScore rules ctx)

/-- A rule contributes iff its `evaluate` succeeds and its weight is positive. -/
def contributes {Ctx : Type} (ctx : Ctx) (rule : EngineRule Ctx) : Bool :=
  (match rule.evaluate ctx with | .ok _ => true | .error _ => false) &&
  decide (0 < rule.weight)

/-- The score the loop uses for a rule (50 when the rule raised). -/
def okScore {Ctx : Type} (ctx : Ctx) (rule : EngineRule Ctx) : ℚ :=
  match rule.evaluate ctx with
  | .ok res => res.score.getD 50
  | .error _ => 50

/-- The record `analyze` stores for a rule. -/
def recordOf {Ctx : Type} (ctx : Ctx) (rule : EngineRule Ctx) : RuleRecord :=
  match rule.evaluate ctx with
  | .ok res => ⟨rule.rule_id, rule.name, res.score.getD 50, rule.weight⟩
  | .error _ => ⟨rule.rule_id, rule.name, 50, rule.weight⟩

theorem runRules_eq {Ctx : Type} (ctx : Ctx) (rules : List (EngineRule Ctx)) :
    ∀ acc : ScoreAcc,
      rules.foldl (evalStep ctx) acc =
        ⟨acc.rule_results ++ rules.map (recordOf ctx),
         acc.weighted_sum +
           ((rules.filter (contributes ctx)).map
             (fun r => okScore ctx r * r.weight)).sum,
         acc.weight_total +
           ((rules.filter (contributes ctx)).map (fun r => r.weight)).sum⟩ := by
  induction rules with
  | nil => intro acc; simp
  | cons r rs ih =>
    intro acc
    simp only [List.foldl_cons, List.map_cons, List.filter_cons]
    rw [ih]
    cases hev : r.evaluate ctx with
    | ok res =>
      by_cases hw : 0 < r.weight
      · simp [evalStep, hev, recordOf, contributes, okScore, hw]
        constructor <;> ring
      · simp [evalStep, hev, recordOf, contributes, okScore, hw]
    | error e =>
      simp [evalStep, hev, recordOf, contributes, okScore]

end StockAnalysisEngine

/-- C2: the engine's comprehensive score is the weighted average over the
rules with positive weight whose `evaluate` succeeded (50 when none
contribute weight); a raising rule is recorded with score 50 (every rule's
record is `recordOf`, which yields score 50 on an exception); the reported
`comprehensive_score` is the comprehensive value rounded to one decimal. -/
theorem C2_engine_weighted_average {Ctx : Type}
    (rules : List (StockAnalysisEngine.EngineRule Ctx)) (ctx : Ctx) :
    (StockAnalysisEngine.comprehensiveScore rules ctx =
      (let contrib := rules.filter (StockAnalysisEngine.contributes ctx)
       let W := (contrib.map (fun r => r.weight)).sum
       if 0 < W then
         ((contrib.map
            (fun r => StockAnalysisEngine.okScore ctx r * r.weight)).sum) / W
       else 50)) ∧
    (StockAnalysisEngine.runRules rules ctx).rule_results =
      rules.map (StockAnalysisEngine.recordOf ctx) ∧
    StockAnalysisEngine.reportedComprehensiveScore rules ctx =
      pyRound 1 (StockAnalysisEngine.comprehensiveScore rules ctx) := by
  have h := StockAnalysisEngine.runRules_eq ctx rules ⟨[], 0, 0⟩
  refine ⟨?_, ?_, rfl⟩
  · rw [StockAnalysisEngine.comprehensiveScore, StockAnalysisEngine.runRules, h]
    simp
  · rw [StockAnalysisEngine.runRules, h]
    simp

/-!
## C3 — scoring ranges

* `src/analysis/optimized_stock_analyzer.py` lines 314–350:
  `OptimizedStockAnalyzer._calculate_relaxed_tech_score`
* `src/stock_screener/analyzer/rules/technical_rule.py` lines 17–68:
  `TechnicalRule.evaluate`
* `src/stock_screener/analyzer/rules/sentiment_rule.py` lines 17–31:
  `SentimentRule.evaluate`
-/

/-- A row of the price DataFrame (columns the scoring reads). -/
structure PriceRow where
  close : ℚ
  volume : ℚ
  deriving DecidableEq

/-- `series.iloc[-k]` (the k-th element from the end; only used under
length guards). -/
def ilocNeg (l : List ℚ) (k : ℕ) : ℚ := l.getD (l.length - k) 0

/-- `series.rolling(k).mean().iloc[-1]` for `k ≤ len`: the mean of the
last `k` entries. -/
def meanLast (k : ℕ) (l : List ℚ) : ℚ := (l.drop (l.length - k)).sum / k

namespace OptimizedStockAnalyzer

/-- The two moving-average bonuses of `_calculate_relaxed_tech_score`
(lines 321–330). -/
def maBonus (df : List PriceRow) (base : ℚ) : ℚ :=
  if 5 ≤ df.length then
    let closes := df.map (fun r => r.close)
    let current_price := ilocNeg closes 1
    let ma5 := meanLast 5 closes
    let s := if ma5 * (98/100) ≤ current_price then base + 1/5 else base
    if 10 ≤ df.length then
      let ma10 := meanLast 10 closes
      if ma10 * (96/100) ≤ current_price then s + 3/20 else s
    else s
  else base

/-- The two 3-day-trend bonuses (lines 332–338).  `close.iloc[-3]` is a
numpy float, so a zero divisor yields ±inf/NaN rather than an exception;
in the rational model `x / 0 = 0`.  Only the two comparisons below depend
on this corner and every branch outcome is covered by the range theorem. -/
def trendBonus (df : List PriceRow) (base : ℚ) : ℚ :=
  if 3 ≤ df.length then
    let closes := df.map (fun r => r.close)
    let recent_trend := (ilocNeg closes 1 - ilocNeg closes 3) / ilocNeg closes 3
    let s := if (-5/100 : ℚ) < recent_trend then base + 3/20 else base
    if (2/100 : ℚ) < recent_trend then s + 1/10 else s
  else base

/-- The volume bonus (lines 340–345). -/
def volBonus (df : List PriceRow) (base : ℚ) : ℚ :=
  if 5 ≤ df.length then
    let volumes := df.map (fun r => r.volume)
    let vol_ma := meanLast 5 volumes
    let current_vol := ilocNeg volumes 1
    if vol_ma * (8/10) < current_vol then base + 1/10 else base
  else base

/-- `OptimizedStockAnalyzer._calculate_relaxed_tech_score` (lines 314–350):
base 0.4, sequential bonuses, clamped above via `min(1.0, score)`.  On an
empty frame `df['close'].iloc[-1]` raises and the surrounding
`try/except: pass` leaves the base score. -/
def calcRelaxedTechScore (df : List PriceRow) : ℚ :=
  match df with
  | [] => min 1 (2/5)
  | _ :: _ => min 1 (volBonus df (trendBonus df (maBonus df (2/5))))

theorem maBonus_bounds (df : List PriceRow) (base : ℚ) :
    base ≤ maBonus df base ∧ maBonus df base ≤ base + 7/20 := by
  unfold maBonus
  dsimp only
  split_ifs <;> constructor <;> linarith

theorem trendBonus_bounds (df : List PriceRow) (base : ℚ) :
    base ≤ trendBonus df base ∧ trendBonus df base ≤ base + 1/4 := by
  unfold trendBonus
  dsimp only
  split_ifs <;> constructor <;> linarith

theorem volBonus_bounds (df : List PriceRow) (base : ℚ) :
    base ≤ volBonus df base ∧ volBonus df base ≤ base + 1/10 := by
  unfold volBonus
  dsimp only
  split_ifs <;> constructor <;> linarith

end OptimizedStockAnalyzer

/-- The `ctx['technical']` dict as read by `TechnicalRule.evaluate`
(each key via `tech.get(k, default)`). -/
structure TechCtx where
  ma_trend : Option String := none
  rsi : Option ℚ := none
  macd_signal : Option String := none
  bb_position : Option ℚ := none
  volume_status : Option String := none

/-- `TechnicalRule.evaluate` score (technical_rule.py lines 17–68):
base 50, signal bonuses/maluses, clamped by `max(0, min(100, score))`. -/
def technicalRuleScore (tech : TechCtx) : ℚ :=
  let ma_trend := tech.ma_trend.getD ""
  let s1 : ℚ :=
    if ma_trend = "多头排列" then 50 + 20
    else if ma_trend = "空头排列" then 50 - 20
    else 50
  let rsi := tech.rsi.getD 50
  let s2 :=
    if 30 ≤ rsi ∧ rsi ≤ 70 then s1 + 10
    else if rsi < 30 then s1 + 5
    else if 70 < rsi then s1 - 5
    else s1
  let macd := tech.macd_signal.getD ""
  let s3 :=
    if macd = "金叉向上" then s2 + 15
    else if macd = "死叉向下" then s2 - 15
    else s2
  let bb := tech.bb_position.getD (1/2)
  let s4 :=
    if bb < 1/5 then s3 + 10
    else if 4/5 < bb then s3 - 5
    else s3
  let vol := tech.volume_status.getD ""
  let s5 :=
    if pySubstr "放量上涨" vol then s4 + 10
    else if pySubstr "放量下跌" vol then s4 - 10
    else s4
  max 0 (min 100 s5)

/-- The `ctx['sentiment']` dict as read by `SentimentRule.evaluate`. -/
structure SentCtx where
  overall_sentiment : Option ℚ := none
  confidence_score : Option ℚ := none
  total_analyzed : Option ℚ := none
  sentiment_trend : Option String := none

/-- `SentimentRule.evaluate` score (sentiment_rule.py lines 17–31):
`max(0, min(100, (overall+1)*50 + confidence*10 + min(total/100,1)*10))`,
reported as `round(score, 1)`. -/
def sentimentRuleScore (sent : SentCtx) : ℚ :=
  let overall := sent.overall_sentiment.getD 0
  let confidence := sent.confidence_score.getD 0
  let total := sent.total_analyzed.getD 0
  let base := (overall + 1) * 50
  let adjust := confidence * 10 + min (total / 100) 1 * 10
  let score := max 0 (min 100 (base + adjust))
  pyRound 1 score

/-- C3 counterexample: on an empty technical context `TechnicalRule.evaluate`
returns score 60 (base 50 plus the RSI-normal bonus), which does not lie in
[0, 1] — the rule scores live on a 0–100 scale, so the claim as stated is
false. -/
theorem C3_counterexample :
    technicalRuleScore ⟨none, none, none, none, none⟩ = 60 ∧
    ¬(technicalRuleScore ⟨none, none, none, none, none⟩ ≤ 1) := by
  have h : technicalRuleScore ⟨none, none, none, none, none⟩ = 60 := by
    simp [technicalRuleScore, pySubstr, containsSub]
    norm_num
  exact ⟨h, by rw [h]; norm_num⟩

/-- C3 amended: every scoring formula is clamped to its own scale —
`_calculate_relaxed_tech_score` always lies in [0, 1] (indeed in [0.4, 1]),
while the scores of `TechnicalRule.evaluate` and `SentimentRule.evaluate`
always lie in [0, 100]. -/
theorem C3_amended_score_ranges :
    (∀ df : List PriceRow,
      0 ≤ OptimizedStockAnalyzer.calcRelaxedTechScore df ∧
      OptimizedStockAnalyzer.calcRelaxedTechScore df ≤ 1) ∧
    (∀ tech : TechCtx,
      0 ≤ technicalRuleScore tech ∧ technicalRuleScore tech ≤ 100) ∧
    (∀ sent : SentCtx,
      0 ≤ sentimentRuleScore sent ∧ sentimentRuleScore sent ≤ 100) := by
  refine ⟨?_, ?_, ?_⟩
  · intro df
    cases df with
    | nil =>
      constructor <;> simp [OptimizedStockAnalyzer.calcRelaxedTechScore]
      norm_num
    | cons r rs =>
      have h1 := OptimizedStockAnalyzer.maBonus_bounds (r :: rs) (2/5)
      have h2 := OptimizedStockAnalyzer.trendBonus_bounds (r :: rs)
        (OptimizedStockAnalyzer.maBonus (r :: rs) (2/5))
      have h3 := OptimizedStockAnalyzer.volBonus_bounds (r :: rs)
        (OptimizedStockAnalyzer.trendBonus (r :: rs)
          (OptimizedStockAnalyzer.maBonus (r :: rs) (2/5)))
      have hge : (2/5 : ℚ) ≤ OptimizedStockAnalyzer.volBonus (r :: rs)
          (OptimizedStockAnalyzer.trendBonus (r :: rs)
            (OptimizedStockAnalyzer.maBonus (r :: rs) (2/5))) := by
        linarith [h1.1, h2.1, h3.1]
      constructor
      · rw [OptimizedStockAnalyzer.calcRelaxedTechScore]
        have : (0 : ℚ) ≤ 2/5 := by norm_num
        exact le_min (by norm_num) (by linarith)
      · rw [OptimizedStockAnalyzer.calcRelaxedTechScore]
        exact min_le_left _ _
  · intro tech
    rw [technicalRuleScore]
    constructor
    · exact le_max_left 0 _
    · exact max_le (by norm_num) (min_le_of_left_le (by norm_num))
  · intro sent
    rw [sentimentRuleScore]
    constructor
    · exact pyRound_nonneg (le_max_left 0 _) 1
    · have hb : (fun score => score)
          (max 0 (min 100 ((sent.overall_sentiment.getD 0 + 1) * 50 +
            (sent.confidence_score.getD 0 * 10 +
             min (sent.total_analyzed.getD 0 / 100) 1 * 10)))) ≤
          ((100 : ℤ) : ℚ) := by
        push_cast
        exact max_le (by norm_num) (min_le_of_left_le le_rfl)
      have h := pyRound_le_of_le 100 hb 1
      exact_mod_cast h

/-!
## C4 — `src/backend/services/stock_analysis_service.py`:
`StockAnalysisService.run_analysis` (lines 32–99) and
`src/analysis/optimized_stock_analyzer.py`:
`generate_optimized_recommendations` (line 529).

The service invokes
`analyzer.generate_optimized_recommendations(progress_callback=..., is_cancelled=...)`
inside its `try`, but the analyzer's signature accepts only
`progress_callback`.  Python raises `TypeError: unexpected keyword argument`
for such a call, so the `except` branch always runs.
-/

namespace StockAnalysisService

/-- Parameter names of `generate_optimized_recommendations` (besides `self`),
from its `def` at optimized_stock_analyzer.py line 529. -/
def generateOptimizedRecommendationsParams : List String := ["progress_callback"]

/-- The keyword arguments `run_analysis` passes at
stock_analysis_service.py lines 64–67. -/
def runAnalysisCallKeywords : List String := ["progress_callback", "is_cancelled"]

/-- Python keyword-call semantics: a keyword argument that is not a parameter
of the callee raises `TypeError` before the body runs. -/
def callWithKeywords {α : Type} (params kwargs : List String) (body : Unit → α) :
    Except String α :=
  match kwargs.find? (fun k => !params.contains k) with
  | some k => .error ("unexpected keyword argument " ++ k)
  | none => .ok (body ())

/-- The analysis report as `run_analysis` reads it back:
`report.get('cancelled')` and `report.get('recommendations')`. -/
structure ServiceReport where
  cancelled : Bool := false
  recommendations : List Stock := []
  date : String := ""

/-- The task status `run_analysis` settles on (stock_analysis_service.py
lines 61–99): `cancelled` when the report carries the cancelled flag,
`completed` otherwise, and `failed` when the guarded call raises. -/
def runAnalysisStatus (analyzerBody : Unit → ServiceReport)
    (is_cancelled : Unit → Bool) : String :=
  match callWithKeywords generateOptimizedRecommendationsParams
      runAnalysisCallKeywords analyzerBody with
  | .error _ => "failed"
  | .ok report => if report.cancelled then "cancelled" else "completed"

end StockAnalysisService

/-- C4: the cancellation protocol is broken.  Whatever the polled flag
returns and whatever report the analyzer would produce, `run_analysis`
always ends with status "failed" — never "cancelled" — because the call
passes the unsupported keyword `is_cancelled` and raises `TypeError`. -/
theorem C4_run_analysis_always_fails
    (analyzerBody : Unit → StockAnalysisService.ServiceReport)
    (is_cancelled : Unit → Bool) :
    StockAnalysisService.runAnalysisStatus analyzerBody is_cancelled = "failed" ∧
    StockAnalysisService.callWithKeywords
        StockAnalysisService.generateOptimizedRecommendationsParams
        StockAnalysisService.runAnalysisCallKeywords analyzerBody =
      .error "unexpected keyword argument is_cancelled" := by
  constructor <;> rfl

/-!
## C5 — `src/backend/app.py`: error bodies of the cited JSON API handlers.

`run_analysis` (lines 873–926) catches exceptions and answers
`{'success': False, 'message': ...}`; `system_status` (lines 928–935)
catches them but answers `{'error': ...}`; `api_models_add`
(lines 1112–1118) has no `try/except` at all.
-/

/-- The JSON body an API handler produces when the handled request raised. -/
inductive JsonErrorBody
  | successMessage (message : String)
  | errorOnly (message : String)
  deriving DecidableEq

/-- `run_analysis`'s `except` branch (app.py lines 919–926). -/
def run_analysis_onException (e : String) : Option JsonErrorBody :=
  some (.successMessage ("分析过程中出现错误: " ++ e ++ "，请检查系统配置或稍后重试"))

/-- `system_status`'s `except` branch (app.py lines 934–935):
`jsonify({'error': str(e)})`. -/
def system_status_onException (e : String) : Option JsonErrorBody :=
  some (.errorOnly e)

/-- `api_models_add` (app.py lines 1112–1118) catches nothing: an exception
propagates out of the handler, producing no JSON body. -/
def api_models_add_onException (_e : String) : Option JsonErrorBody :=
  none

/-- Does a handler's exception outcome have the spec's
`{success: false, message}` shape? -/
def conformsErrorShape : Option JsonErrorBody → Bool
  | some (JsonErrorBody.successMessage _) => true
  | _ => false

/-- C5 counterexample: `system_status` converts an exception to
`{'error': ...}` — not `{success: false, message}` — and `api_models_add`
lets the exception propagate, so the claim quantified over every JSON API
handler is false. -/
theorem C5_counterexample :
    conformsErrorShape (system_status_onException "database is locked") = false ∧
    api_models_add_onException "database is locked" = none := by
  constructor <;> rfl

/-- C5 amended: most handlers (e.g. `run_analysis`) convert exceptions to
`{success: false, message}`, but `system_status` answers the differently
shaped `{'error': <text>}` and the model-provider handlers such as
`api_models_add` install no exception handler, letting exceptions
propagate. -/
theorem C5_amended_error_shapes (e : String) :
    conformsErrorShape (run_analysis_onException e) = true ∧
    system_status_onException e = some (.errorOnly e) ∧
    api_models_add_onException e = none := by
  exact ⟨rfl, rfl, rfl⟩

/-!
## C6 — `src/backend/app.py` lines 114–141:
`WebAppManager.save_recommendations`.

The `stock_recommendations` table is modelled as a list of rows in rowid
order; `DELETE FROM ... WHERE date = ?` removes the matching rows and the
subsequent INSERTs append one row per recommendation.
-/

namespace WebAppManager

/-- A `stock_recommendations` row (the columns the INSERT at lines 124–138
fills; `id`/`status`/`created_at` take their SQL defaults and no claim
reads them). -/
structure RecRow where
  date : String
  symbol : Option String
  stock_name : Option String
  market : Option String
  current_price : Option ℚ
  total_score : Option ℚ
  tech_score : Option ℚ
  auction_score : Option ℚ
  auction_chg : Option ℚ
  gap_type : Option String
  confidence : Option String
  strategy : Option String
  entry_price : Option ℚ
  stop_loss : Option ℚ
  target_price : Option ℚ
  deriving DecidableEq, Repr

/-- The row the INSERT builds from a stock dict (`stock.get(...)` per
column). -/
def rowOf (date : String) (stock : Stock) : RecRow :=
  ⟨date, stock.symbol, stock.stock_name, stock.market, stock.current_price,
   stock.total_score, stock.tech_score, stock.auction_score,
   stock.auction_chg, stock.gap_type, stock.confidence, stock.strategy,
   stock.entry_price, stock.stop_loss, stock.target_price⟩

/-- `save_recommendations` (app.py lines 114–141): delete the rows of
`date`, then insert one row per recommendation. -/
def save_recommendations (table : List RecRow) (recommendations : List Stock)
    (date : String) : List RecRow :=
  table.filter (fun r => r.date ≠ date) ++ recommendations.map (rowOf date)

end WebAppManager

/-- C6: after `save_recommendations recs d`, the rows dated `d` are exactly
one row per element of `recs` (old rows for `d` were deleted first), and for
every other date the rows are untouched — no row of another date is lost. -/
theorem C6_save_recommendations_frame (table : List WebAppManager.RecRow)
    (recs : List Stock) (date : String) :
    ((WebAppManager.save_recommendations table recs date).filter
        (fun r => r.date = date) = recs.map (WebAppManager.rowOf date)) ∧
    (∀ d' : String, d' ≠ date →
      (WebAppManager.save_recommendations table recs date).filter
          (fun r => r.date = d') = table.filter (fun r => r.date = d')) := by
  constructor
  · rw [WebAppManager.save_recommendations, List.filter_append]
    have h1 : (table.filter (fun r => r.date ≠ date)).filter
        (fun r => r.date = date) = [] := by
      rw [List.filter_filter]
      apply List.filter_eq_nil_iff.mpr
      intro a _
      simp
    have h2 : (recs.map (WebAppManager.rowOf date)).filter
        (fun r => r.date = date) = recs.map (WebAppManager.rowOf date) := by
      induction recs with
      | nil => simp
      | cons s ss ih => simp [WebAppManager.rowOf, ih]
    rw [h1, h2, List.nil_append]
  · intro d' hd'
    rw [WebAppManager.save_recommendations, List.filter_append]
    have h1 : (recs.map (WebAppManager.rowOf date)).filter
        (fun r => r.date = d') = [] := by
      induction recs with
      | nil => simp
      | cons s ss ih => simp [WebAppManager.rowOf, ih, Ne.symm hd']
    have h2 : (table.filter (fun r => r.date ≠ date)).filter
        (fun r => r.date = d') = table.filter (fun r => r.date = d') := by
      rw [List.filter_filter]
      apply List.filter_congr
      intro a _
      by_cases ha : a.date = d'
      · have hne : a.date ≠ date := by rw [ha]; exact hd'
        simp [ha, hne, hd']
      · simp [ha]
    rw [h1, h2, List.append_nil]

/-- Concrete instance of C6: saving one recommendation for 2024-01-02 keeps
the 2024-01-01 row intact and replaces the 2024-01-02 rows. -/
theorem C6_save_recommendations_frame_witness :
    (("2024-01-01" : String) ≠ "2024-01-02") ∧
    ((WebAppManager.save_recommendations
        [{ (WebAppManager.rowOf "2024-01-01" {}) with symbol := some "sh.600519" },
         { (WebAppManager.rowOf "2024-01-02" {}) with symbol := some "sz.000001" }]
        [{ symbol := some "sz.300750" }] "2024-01-02").filter
        (fun r => r.date = "2024-01-01") =
      [{ (WebAppManager.rowOf "2024-01-01" {}) with symbol := some "sh.600519" }]) := by
  refine ⟨by decide, ?_⟩
  have h := (C6_save_recommendations_frame
    [{ (WebAppManager.rowOf "2024-01-01" {}) with symbol := some "sh.600519" },
     { (WebAppManager.rowOf "2024-01-02" {}) with symbol := some "sz.000001" }]
    [{ symbol := some "sz.300750" }] "2024-01-02").2 "2024-01-01" (by decide)
  rw [h]
  rfl

/-!
## C7 — `src/stock_screener/watchlist.py` lines 136–160:
`WatchlistManager.add_stock`, with the unique constraint
`uq_watchlist_stocks_group_symbol` of `src/models/schema.py` lines 186–206.
-/

namespace WatchlistManager

/-- A `watchlist_stocks` row (schema.py lines 186–206). -/
structure WStockRow where
  id : ℕ
  group_id : ℕ
  symbol : String
  stock_name : String
  market : String
  note : String
  deriving DecidableEq, Repr

/-- The unique constraint on `(group_id, symbol)`: would inserting this pair
violate it? -/
def violatesUnique (table : List WStockRow) (group_id : ℕ) (symbol : String) :
    Bool :=
  table.any (fun r => r.group_id == group_id && r.symbol == symbol)

/-- SQLite AUTOINCREMENT id for the next insert. -/
def nextId (table : List WStockRow) : ℕ :=
  (table.map (fun r => r.id)).foldr max 0 + 1

/-- What `add_stock` returns: the inserted row's dict, or the duplicate
error dict. -/
inductive AddStockOutcome
  | ok (row : WStockRow)
  | dupError (message : String)
  deriving DecidableEq, Repr

/-- `add_stock` (watchlist.py lines 136–160): commit the insert, or roll it
back on `IntegrityError` and answer the duplicate-error dict. -/
def add_stock (table : List WStockRow) (group_id : ℕ)
    (symbol stock_name market note : String) :
    AddStockOutcome × List WStockRow :=
  if violatesUnique table group_id symbol then
    (.dupError (symbol ++ " 已在该分组中"), table)
  else
    let row : WStockRow :=
      ⟨nextId table, group_id, symbol, stock_name, market, note⟩
    (.ok row, table ++ [row])

end WatchlistManager

/-- C7: adding a symbol already present in the group answers the
`duplicate` error dict and leaves the table unchanged (the insert is rolled
back); adding a symbol not present appends exactly one row and returns its
dict form. -/
theorem C7_add_stock_unique (table : List WatchlistManager.WStockRow)
    (group_id : ℕ) (symbol stock_name market note : String) :
    ((∃ r ∈ table, r.group_id = group_id ∧ r.symbol = symbol) →
      WatchlistManager.add_stock table group_id symbol stock_name market note =
        (.dupError (symbol ++ " 已在该分组中"), table)) ∧
    ((¬ ∃ r ∈ table, r.group_id = group_id ∧ r.symbol = symbol) →
      WatchlistManager.add_stock table group_id symbol stock_name market note =
        (.ok ⟨WatchlistManager.nextId table, group_id, symbol, stock_name,
              market, note⟩,
         table ++ [⟨WatchlistManager.nextId table, group_id, symbol,
                    stock_name, market, note⟩])) := by
  have hbool : WatchlistManager.violatesUnique table group_id symbol = true ↔
      ∃ r ∈ table, r.group_id = group_id ∧ r.symbol = symbol := by
    simp [WatchlistManager.violatesUnique, List.any_eq_true]
  constructor
  · intro h
    rw [WatchlistManager.add_stock, if_pos (hbool.mpr h)]
  · intro h
    rw [WatchlistManager.add_stock,
      if_neg (fun hc => h (hbool.mp hc))]

/-- Concrete instance of C7: re-adding "sh.600519" to group 1 is rejected
with the table unchanged; adding "sz.000001" appends one row. -/
theorem C7_add_stock_unique_witness :
    (∃ r ∈ [(⟨1, 1, "sh.600519", "贵州茅台", "", ""⟩ :
        WatchlistManager.WStockRow)],
      r.group_id = 1 ∧ r.symbol = "sh.600519") ∧
    WatchlistManager.add_stock
        [⟨1, 1, "sh.600519", "贵州茅台", "", ""⟩] 1 "sh.600519" "贵州茅台" "" "" =
      (.dupError ("sh.600519" ++ " 已在该分组中"),
       [⟨1, 1, "sh.600519", "贵州茅台", "", ""⟩]) ∧
    WatchlistManager.add_stock
        [⟨1, 1, "sh.600519", "贵州茅台", "", ""⟩] 1 "sz.000001" "平安银行" "" "" =
      (.ok ⟨2, 1, "sz.000001", "平安银行", "", ""⟩,
       [⟨1, 1, "sh.600519", "贵州茅台", "", ""⟩,
        ⟨2, 1, "sz.000001", "平安银行", "", ""⟩]) := by
  refine ⟨⟨⟨1, 1, "sh.600519", "贵州茅台", "", ""⟩, by simp, rfl, rfl⟩, ?_, ?_⟩
  · exact (C7_add_stock_unique
      [⟨1, 1, "sh.600519", "贵州茅台", "", ""⟩] 1 "sh.600519" "贵州茅台" "" "").1
      ⟨⟨1, 1, "sh.600519", "贵州茅台", "", ""⟩, by simp, rfl, rfl⟩
  · exact (C7_add_stock_unique
      [⟨1, 1, "sh.600519", "贵州茅台", "", ""⟩] 1 "sz.000001" "平安银行" "" "").2
      (by intro hc; rcases hc with ⟨r, hr, _, hsym⟩; simp at hr; subst hr; simp at hsym)

/-!
## C8 — `src/analysis/trading_day_scheduler.py`: `TradingDayScheduler`
(`should_send_report` lines 59–72, `execute_daily_analysis` lines 74–105,
`execute_fallback_report` lines 126–139).

The scheduler's mutable flags are the state; `today` is
`datetime.now().strftime('%Y-%m-%d')` at call time; whether the trading-time
window check passes and whether `send_daily_report()` succeeds are inputs.
-/

namespace TradingDayScheduler

/-- The scheduler's per-day latch (`__init__` lines 33–42). -/
structure SchedState where
  report_sent_today : Bool
  last_report_date : Option String
  deriving DecidableEq, Repr

/-- `should_send_report` (lines 59–72): the decision together with the
state after the new-day reset. -/
def should_send_report (st : SchedState) (today : String) :
    Bool × SchedState :=
  if st.report_sent_today ∧ st.last_report_date = some today then (false, st)
  else if st.last_report_date ≠ some today then (true, ⟨false, some today⟩)
  else (true, st)

/-- Result of one scheduler entry point: the new state, and whether
`send_daily_report` was invoked. -/
structure ExecOutcome where
  state : SchedState
  sent : Bool
  deriving DecidableEq, Repr

/-- `execute_daily_analysis` (lines 74–105): bail out outside the trading
window or when today's report was already sent; otherwise send, latching
the flags only on success. -/
def execute_daily_analysis (st : SchedState) (today : String)
    (is_trading_time send_success : Bool) : ExecOutcome :=
  if ¬is_trading_time then ⟨st, false⟩
  else
    match should_send_report st today with
    | (false, st') => ⟨st', false⟩
    | (true, st') =>
      if send_success then ⟨⟨true, some today⟩, true⟩ else ⟨st', true⟩

/-- `execute_fallback_report` (lines 126–139): re-run the daily analysis
only when today's report has not been sent. -/
def execute_fallback_report (st : SchedState) (today : String)
    (is_trading_time send_success : Bool) : ExecOutcome :=
  if ¬st.report_sent_today ∨ st.last_report_date ≠ some today then
    execute_daily_analysis st today is_trading_time send_success
  else ⟨st, false⟩

end TradingDayScheduler

/-- C8: once a report was sent on day `d` (flag set, `last_report_date = d`),
any later `execute_daily_analysis` or `execute_fallback_report` on day `d`
sends nothing and leaves the state unchanged (because `should_send_report`
answers `False`); on a new day `d'` the latch is reset, sending is allowed
again, and a successful send latches the flags for `d'`. -/
theorem C8_one_report_per_day (st : TradingDayScheduler.SchedState)
    (d : String) (is_trading_time send_success : Bool)
    (hs : st.report_sent_today = true)
    (hd : st.last_report_date = some d) :
    TradingDayScheduler.execute_daily_analysis st d is_trading_time
        send_success = ⟨st, false⟩ ∧
    TradingDayScheduler.execute_fallback_report st d is_trading_time
        send_success = ⟨st, false⟩ ∧
    (∀ d' : String, d' ≠ d →
      TradingDayScheduler.should_send_report st d' = (true, ⟨false, some d'⟩) ∧
      TradingDayScheduler.execute_daily_analysis st d' true true =
        ⟨⟨true, some d'⟩, true⟩) := by
  have hssr : TradingDayScheduler.should_send_report st d = (false, st) := by
    rw [TradingDayScheduler.should_send_report, if_pos ⟨hs, hd⟩]
  refine ⟨?_, ?_, ?_⟩
  · rw [TradingDayScheduler.execute_daily_analysis]
    cases is_trading_time with
    | false => simp
    | true => simp [hssr]
  · have hcond : ¬(¬st.report_sent_today = true ∨
        st.last_report_date ≠ some d) := by
      push_neg
      exact ⟨hs, hd⟩
    rw [TradingDayScheduler.execute_fallback_report, if_neg hcond]
  · intro d' hne
    have h1 : TradingDayScheduler.should_send_report st d' =
        (true, ⟨false, some d'⟩) := by
      have hc1 : ¬(st.report_sent_today = true ∧
          st.last_report_date = some d') := by
        rintro ⟨-, h⟩
        rw [hd] at h
        exact hne (Option.some.inj h).symm
      have hc2 : st.last_report_date ≠ some d' := by
        rw [hd]
        intro h
        exact hne (Option.some.inj h).symm
      rw [TradingDayScheduler.should_send_report, if_neg hc1, if_pos hc2]
    refine ⟨h1, ?_⟩
    rw [TradingDayScheduler.execute_daily_analysis]
    simp [h1]

/-- Concrete instance of C8: after the 2024-01-02 report is latched, calls
on 2024-01-02 send nothing; on 2024-01-03 the latch resets and a successful
run sends and re-latches. -/
theorem C8_one_report_per_day_witness :
    (TradingDayScheduler.SchedState.report_sent_today
        ⟨true, some "2024-01-02"⟩ = true) ∧
    (TradingDayScheduler.SchedState.last_report_date
        ⟨true, some "2024-01-02"⟩ = some "2024-01-02") ∧
    (("2024-01-03" : String) ≠ "2024-01-02") ∧
    TradingDayScheduler.execute_daily_analysis ⟨true, some "2024-01-02"⟩
      "2024-01-02" true true = ⟨⟨true, some "2024-01-02"⟩, false⟩ ∧
    TradingDayScheduler.execute_fallback_report ⟨true, some "2024-01-02"⟩
      "2024-01-02" true true = ⟨⟨true, some "2024-01-02"⟩, false⟩ ∧
    TradingDayScheduler.execute_daily_analysis ⟨true, some "2024-01-02"⟩
      "2024-01-03" true true = ⟨⟨true, some "2024-01-03"⟩, true⟩ := by
  have h := C8_one_report_per_day ⟨true, some "2024-01-02"⟩ "2024-01-02"
    true true rfl rfl
  exact ⟨rfl, rfl, by decide, h.1, h.2.1,
    (h.2.2 "2024-01-03" (by decide)).2⟩

/-!
## C10 — `src/stock_screener/watchlist.py`: `delete_group` (lines 109–121)
and `_ensure_default_groups` (lines 51–65), with the cascade of
`WatchlistGroup.stocks` (`src/models/schema.py` lines 168–183).
-/

namespace WatchlistManager

/-- A `watchlist_groups` row (schema.py lines 168–183). -/
structure WGroupRow where
  id : ℕ
  name : String
  sort_order : ℤ
  deriving DecidableEq, Repr

/-- The watchlist tables. -/
structure WatchlistState where
  groups : List WGroupRow
  stocks : List WStockRow
  deriving DecidableEq, Repr

/-- AUTOINCREMENT id for the next group insert. -/
def nextGroupId (groups : List WGroupRow) : ℕ :=
  (groups.map (fun g => g.id)).foldr max 0 + 1

/-- `delete_group` (watchlist.py lines 109–121): fetch the first group with
the id; refuse when absent or named 持有股; otherwise delete it and — by the
`all, delete-orphan` cascade — its stocks. -/
def delete_group (st : WatchlistState) (group_id : ℕ) :
    Bool × WatchlistState :=
  match st.groups.find? (fun g => g.id == group_id) with
  | none => (false, st)
  | some g =>
    if g.name = "持有股" then (false, st)
    else
      (true,
       ⟨st.groups.filter (fun x => x.id ≠ group_id),
        st.stocks.filter (fun s => s.group_id ≠ group_id)⟩)

/-- `_ensure_default_groups` (watchlist.py lines 51–65): add 默认自选 when no
group exists, then add 持有股 when no group has that name. -/
def ensure_default_groups (st : WatchlistState) : WatchlistState :=
  let st1 : WatchlistState :=
    if st.groups.isEmpty then
      ⟨st.groups ++ [⟨nextGroupId st.groups, "默认自选", 0⟩], st.stocks⟩
    else st
  if st1.groups.any (fun g => g.name == "持有股") then st1
  else ⟨st1.groups ++ [⟨nextGroupId st1.groups, "持有股", -1⟩], st1.stocks⟩

end WatchlistManager

/-- C10: with primary-key-unique group ids, `delete_group` succeeds exactly
when a group with the id exists and is not named 持有股 (removing the group
and, by cascade, its stocks); otherwise it reports `False` and changes
nothing — and after `_ensure_default_groups` a 持有股 group always exists,
which `delete_group` therefore refuses to delete. -/
theorem C10_delete_group_spec (st : WatchlistManager.WatchlistState)
    (group_id : ℕ)
    (hids : (st.groups.map (fun g => g.id)).Nodup) :
    ((WatchlistManager.delete_group st group_id).1 = true ↔
      ∃ g ∈ st.groups, g.id = group_id ∧ g.name ≠ "持有股") ∧
    ((WatchlistManager.delete_group st group_id).1 = false →
      WatchlistManager.delete_group st group_id = (false, st)) ∧
    ((WatchlistManager.delete_group st group_id).1 = true →
      (WatchlistManager.delete_group st group_id).2 =
        ⟨st.groups.filter (fun x => x.id ≠ group_id),
         st.stocks.filter (fun s => s.group_id ≠ group_id)⟩) ∧
    (∀ g ∈ st.groups, g.name = "持有股" →
      WatchlistManager.delete_group st g.id = (false, st)) ∧
    (∃ g ∈ (WatchlistManager.ensure_default_groups st).groups,
      g.name = "持有股") := by
  have hinj : ∀ x ∈ st.groups, ∀ y ∈ st.groups, x.id = y.id → x = y :=
    fun x hx y hy hxy => List.inj_on_of_nodup_map hids hx hy hxy
  refine ⟨?_, ?_, ?_, ?_, ?_⟩
  · cases hf : st.groups.find? (fun g => g.id == group_id) with
    | none =>
      have hnone : ∀ x ∈ st.groups, ¬x.id = group_id := by
        simpa [List.find?_eq_none] using hf
      simp only [WatchlistManager.delete_group, hf]
      constructor
      · intro h
        exact absurd h (by simp)
      · rintro ⟨g, hg, hgid, -⟩
        exact absurd hgid (hnone g hg)
    | some g =>
      have hgid : g.id = group_id := by
        have := List.find?_some hf
        simpa using this
      have hgmem : g ∈ st.groups := List.mem_of_find?_eq_some hf
      by_cases hn : g.name = "持有股"
      · simp only [WatchlistManager.delete_group, hf, if_pos hn]
        constructor
        · intro h
          exact absurd h (by simp)
        · rintro ⟨g', hg', hg'id, hg'n⟩
          have : g' = g := hinj g' hg' g hgmem (hg'id.trans hgid.symm)
          exact absurd (this ▸ hn) hg'n
      · simp only [WatchlistManager.delete_group, hf, if_neg hn]
        exact ⟨fun _ => ⟨g, hgmem, hgid, hn⟩, fun _ => trivial⟩
  · intro h
    cases hf : st.groups.find? (fun g => g.id == group_id) with
    | none => simp only [WatchlistManager.delete_group, hf]
    | some g =>
      by_cases hn : g.name = "持有股"
      · simp only [WatchlistManager.delete_group, hf, if_pos hn]
      · simp only [WatchlistManager.delete_group, hf, if_neg hn] at h
        exact absurd h (by simp)
  · intro h
    cases hf : st.groups.find? (fun g => g.id == group_id) with
    | none =>
      simp only [WatchlistManager.delete_group, hf] at h
      exact absurd h (by simp)
    | some g =>
      by_cases hn : g.name = "持有股"
      · simp only [WatchlistManager.delete_group, hf, if_pos hn] at h
        exact absurd h (by simp)
      · simp only [WatchlistManager.delete_group, hf, if_neg hn]
  · intro g hg hn
    cases hf : st.groups.find? (fun g' => g'.id == g.id) with
    | none => simp only [WatchlistManager.delete_group, hf]
    | some g' =>
      have hg'id : g'.id = g.id := by
        have := List.find?_some hf
        simpa using this
      have hg'mem : g' ∈ st.groups := List.mem_of_find?_eq_some hf
      have hgg : g' = g := hinj g' hg'mem g hg hg'id
      simp only [WatchlistManager.delete_group, hf, if_pos (hgg ▸ hn)]
  · rw [WatchlistManager.ensure_default_groups]
    set st1 : WatchlistManager.WatchlistState :=
      if st.groups.isEmpty then
        ⟨st.groups ++ [⟨WatchlistManager.nextGroupId st.groups, "默认自选", 0⟩],
         st.stocks⟩
      else st with hst1
    by_cases hany : st1.groups.any (fun g => g.name == "持有股")
    · rw [if_pos hany]
      rcases List.any_eq_true.mp hany with ⟨g, hg, hgname⟩
      exact ⟨g, hg, by simpa using hgname⟩
    · rw [if_neg hany]
      exact ⟨⟨WatchlistManager.nextGroupId st1.groups, "持有股", -1⟩,
        by simp, rfl⟩

/-- Concrete instance of C10: with groups 默认自选 (id 1) and 持有股 (id 2)
and one stock in each, deleting group 1 succeeds and cascades to its stock,
while deleting group 2 (持有股) is refused and changes nothing. -/
theorem C10_delete_group_spec_witness :
    (([1, 2] : List ℕ).Nodup) ∧
    WatchlistManager.delete_group
        ⟨[⟨1, "默认自选", 0⟩, ⟨2, "持有股", -1⟩],
         [⟨1, 1, "sh.600519", "", "", ""⟩, ⟨2, 2, "sz.000001", "", "", ""⟩]⟩ 1 =
      (true, ⟨[⟨2, "持有股", -1⟩], [⟨2, 2, "sz.000001", "", "", ""⟩]⟩) ∧
    WatchlistManager.delete_group
        ⟨[⟨1, "默认自选", 0⟩, ⟨2, "持有股", -1⟩],
         [⟨1, 1, "sh.600519", "", "", ""⟩, ⟨2, 2, "sz.000001", "", "", ""⟩]⟩ 2 =
      (false,
       ⟨[⟨1, "默认自选", 0⟩, ⟨2, "持有股", -1⟩],
        [⟨1, 1, "sh.600519", "", "", ""⟩, ⟨2, 2, "sz.000001", "", "", ""⟩]⟩) := by
  have h := C10_delete_group_spec
    ⟨[⟨1, "默认自选", 0⟩, ⟨2, "持有股", -1⟩],
     [⟨1, 1, "sh.600519", "", "", ""⟩, ⟨2, 2, "sz.000001", "", "", ""⟩]⟩ 2
    (by decide)
  refine ⟨by decide, by decide, ?_⟩
  exact h.2.1 (by decide)

/-!
## C9 — `src/analysis/optimized_stock_analyzer.py`:
`_is_risky_stock` (lines 174–192) and the analysis loop of
`generate_optimized_recommendations` (lines 563–602).

External effects are inputs: the deep analyzer's report data
(`DeepStockAnalyzer.generate_deep_analysis_report`, whose `'symbol'` field
is always the analyzed code — deep_stock_analyzer.py lines 104 and 986–992 —
while `basic_info['code_name']` comes from market data) and the numeric
draws of `analyze_stock_with_fallback` (both of its branches end in
`_create_stock_result(symbol, stock_name, ...)`, optimized_stock_analyzer.py
lines 194–312).
-/

namespace OptimizedStockAnalyzer

/-- The delisting/ST keywords of `_is_risky_stock` (line 177). -/
def risky_keywords : List String :=
  ["退", "ST", "*ST", "暂停", "终止", "破产", "清算"]

/-- The delisting blacklist of `_is_risky_stock` (line 187). -/
def delistBlacklist : List String :=
  ["000606", "300090", "002680", "300156", "000536", "002359", "000753"]

/-- The suffix after the last `'.'` (structural recursion). -/
def afterLastDot : List Char → List Char
  | [] => []
  | c :: cs =>
    if cs.contains '.' then afterLastDot cs
    else if c = '.' then cs
    else c :: cs

/-- `symbol.split('.')[-1] if '.' in symbol else symbol` (lines 165, 186). -/
def codeSuffix (symbol : String) : String :=
  if pySubstr "." symbol then ⟨afterLastDot symbol.data⟩ else symbol

/-- `_is_risky_stock` (lines 174–192), boolean part: the name carries a risk
keyword (an empty name skips the loop, and no keyword occurs in an empty
string anyway) or the bare code is blacklisted. -/
def isRiskyStock (symbol stock_name : String) : Bool :=
  risky_keywords.any (fun k => pySubstr k stock_name) ||
  delistBlacklist.contains (codeSuffix symbol)

/-- The auction dict produced by `_generate_auction_score` /
`_generate_simulated_auction_score` (external randomness). -/
structure AuctionInfo where
  strength : ℚ
  chg : ℚ             -- key 'ratio'
  gap_type : String
  capital_bias : ℚ
  deriving DecidableEq, Repr

/-- A recommendation dict (the fields the risk claim and the final sort
read; presentation fields — strategy text, entry/stop/target prices and the
np.random rsi / volume_ratio draws — are not modelled and no claim reads
them). -/
structure Rec where
  symbol : String
  stock_name : String
  market : String
  current_price : ℚ
  total_score : ℚ
  tech_score : ℚ
  auction_score : ℚ
  auction_chg : ℚ
  gap_type : String
  confidence : String
  deriving DecidableEq, Repr

/-- `str.startswith(p)`. -/
def pyStartsWith (p s : String) : Bool := isPrefixCh p.data s.data

/-- `_get_market_type` (lines 464–474). -/
def getMarketType (symbol : String) : String :=
  if pyStartsWith "sh.6" symbol then "上海主板"
  else if pyStartsWith "sz.000" symbol then "深圳主板"
  else if pyStartsWith "sz.002" symbol then "中小板"
  else if pyStartsWith "sz.30" symbol then "创业板"
  else "其他"

/-- `_create_stock_result` (lines 409–462), on the modelled fields: the
symbol and stock name are the arguments, scores are rounded to 3 decimals,
confidence is thresholded on the total score. -/
def createStockResult (symbol stock_name : String)
    (current_price tech_score : ℚ) (auction : AuctionInfo)
    (total_score : ℚ) : Rec :=
  let confidence :=
    if 4/5 ≤ total_score then "very_high"
    else if 13/20 ≤ total_score then "high"
    else "medium"
  ⟨symbol, stock_name, getMarketType symbol, current_price,
   pyRound 3 total_score, pyRound 3 tech_score, pyRound 3 auction.strength,
   auction.chg, auction.gap_type, confidence⟩

/-- The numeric outcome of one `analyze_stock_with_fallback` run (real or
simulated data; external). -/
structure BasicNums where
  current_price : ℚ
  tech_score : ℚ
  auction : AuctionInfo
  total_score : ℚ

/-- `analyze_stock_with_fallback` (lines 194–207): either branch ends in
`_create_stock_result(symbol, stock_name, ...)`, or the analysis yields
nothing. -/
def analyze_stock_with_fallback (basicN : String → String → Option BasicNums)
    (symbol stock_name : String) : Option Rec :=
  (basicN symbol stock_name).map
    (fun b => createStockResult symbol stock_name b.current_price
      b.tech_score b.auction b.total_score)

/-- A deep-analysis report as `_convert_deep_analysis_to_recommendation`
reads it; its `'symbol'` key always holds the analyzed code, so it is not a
field here but the conversion argument. -/
structure DeepResult where
  code_name : String
  total_score : ℚ
  technical_score : ℚ
  sentiment_score : ℚ
  current_price : ℚ
  auction_chg : ℚ
  gap_type : String
  confidence_level : String

/-- `_convert_deep_analysis_to_recommendation` (lines 732–770) on the
modelled fields: the stock name becomes `basic_info['code_name']` from the
deep report. -/
def convertDeepAnalysis (symbol : String) (dr : DeepResult) : Rec :=
  ⟨symbol, dr.code_name, getMarketType symbol, dr.current_price,
   dr.total_score, dr.technical_score, dr.sentiment_score, dr.auction_chg,
   dr.gap_type, dr.confidence_level⟩

/-- The strategy-config values the loop reads (`get_strategy_config`). -/
structure StrategyConfig where
  score_threshold : ℚ
  max_recommendations : ℕ

/-- The deep-analysis branch guard (lines 574–587): only for the first 3
recommendations, only when the deep report exists and clears the threshold;
a deep-analysis exception likewise falls through to the basic path. -/
def deepAttempt (config : StrategyConfig) (useDeep : Bool)
    (deepA : String → Option DeepResult) (recsLen : ℕ) (symbol : String) :
    Option Rec :=
  if useDeep ∧ recsLen < 3 then
    match deepA symbol with
    | some dr =>
      if config.score_threshold ≤ dr.total_score then
        some (convertDeepAnalysis symbol dr)
      else none
    | none => none
  else none

/-- The per-stock loop of `generate_optimized_recommendations`
(lines 563–597): skip risky stocks, try deep analysis (whose success
`continue`s before the early-exit check), otherwise run the basic analysis
and break early once `max_recommendations * 2` results exist. -/
def analysisLoop (config : StrategyConfig) (useDeep : Bool)
    (deepA : String → Option DeepResult)
    (basicN : String → String → Option BasicNums) :
    List (String × String) → List Rec → List Rec
  | [], recs => recs
  | (symbol, stock_name) :: rest, recs =>
    if isRiskyStock symbol stock_name then
      analysisLoop config useDeep deepA basicN rest recs
    else
      match deepAttempt config useDeep deepA recs.length symbol with
      | some r => analysisLoop config useDeep deepA basicN rest (recs ++ [r])
      | none =>
        let recs' :=
          match analyze_stock_with_fallback basicN symbol stock_name with
          | some r => recs ++ [r]
          | none => recs
        if config.max_recommendations * 2 ≤ recs'.length then recs'
        else analysisLoop config useDeep deepA basicN rest recs'

/-- Lines 599–602: stable sort by `total_score` descending, then keep the
top `max_recommendations`.  (The later explain/summary patches only add
presentation fields and database rows.) -/
def finalRecommendations (config : StrategyConfig) (useDeep : Bool)
    (deepA : String → Option DeepResult)
    (basicN : String → String → Option BasicNums)
    (pool : List (String × String)) : List Rec :=
  ((analysisLoop config useDeep deepA basicN pool []).mergeSort
    (fun a b => decide (b.total_score ≤ a.total_score))).take
    config.max_recommendations

/-- The report wrapper. -/
structure OptimizedReport where
  recommendations : List Rec

/-- `generate_optimized_recommendations` returns `{}` when nothing was
recommended (lines 607, 721–730). -/
def generateOptimizedReport (config : StrategyConfig) (useDeep : Bool)
    (deepA : String → Option DeepResult)
    (basicN : String → String → Option BasicNums)
    (pool : List (String × String)) : Option OptimizedReport :=
  let final := finalRecommendations config useDeep deepA basicN pool
  if final.isEmpty then none else some ⟨final⟩

/-- Where a recommendation can come from once a pool entry passed the risk
check: the deep path (name from the deep report) or the basic path (name
from the pool entry). -/
def originatesFrom (deepA : String → Option DeepResult)
    (basicN : String → String → Option BasicNums) (s n : String)
    (r : Rec) : Prop :=
  (∃ dr, deepA s = some dr ∧ r = convertDeepAnalysis s dr) ∨
  (∃ b, basicN s n = some b ∧
    r = createStockResult s n b.current_price b.tech_score b.auction
      b.total_score)

theorem deepAttempt_some {config : StrategyConfig} {useDeep : Bool}
    {deepA : String → Option DeepResult} {len : ℕ} {symbol : String}
    {r : Rec} (h : deepAttempt config useDeep deepA len symbol = some r) :
    ∃ dr, deepA symbol = some dr ∧ r = convertDeepAnalysis symbol dr := by
  rw [deepAttempt] at h
  split at h
  · cases hda : deepA symbol with
    | none =>
      simp only [hda] at h
      exact absurd h (by simp)
    | some dr =>
      simp only [hda] at h
      split at h
      · exact ⟨dr, rfl, (Option.some.inj h).symm⟩
      · exact absurd h (by simp)
  · exact absurd h (by simp)

theorem analysisLoop_mem (config : StrategyConfig) (useDeep : Bool)
    (deepA : String → Option DeepResult)
    (basicN : String → String → Option BasicNums) :
    ∀ (pool : List (String × String)) (acc : List Rec) (r : Rec),
      r ∈ analysisLoop config useDeep deepA basicN pool acc →
      r ∈ acc ∨ ∃ s n, (s, n) ∈ pool ∧ isRiskyStock s n = false ∧
        originatesFrom deepA basicN s n r := by
  intro pool
  induction pool with
  | nil =>
    intro acc r h
    rw [analysisLoop] at h
    exact Or.inl h
  | cons p rest ih =>
    obtain ⟨s, n⟩ := p
    intro acc r h
    rw [analysisLoop] at h
    by_cases hrisk : isRiskyStock s n = true
    · rw [if_pos hrisk] at h
      rcases ih acc r h with hacc | ⟨s', n', hmem, hok, horig⟩
      · exact Or.inl hacc
      · exact Or.inr ⟨s', n', List.mem_cons_of_mem _ hmem, hok, horig⟩
    · have hok : isRiskyStock s n = false := by
        cases hv : isRiskyStock s n
        · rfl
        · exact absurd hv hrisk
      rw [if_neg hrisk] at h
      cases hda : deepAttempt config useDeep deepA acc.length s with
      | some rd =>
        rw [hda] at h
        rcases ih (acc ++ [rd]) r h with hacc | ⟨s', n', hmem, hok', horig⟩
        · rcases List.mem_append.mp hacc with hacc' | hs
          · exact Or.inl hacc'
          · rcases deepAttempt_some hda with ⟨dr, hdr, hr⟩
            have : r = rd := by simpa using hs
            exact Or.inr ⟨s, n, List.mem_cons_self _ _, hok,
              Or.inl ⟨dr, hdr, this ▸ hr⟩⟩
        · exact Or.inr ⟨s', n', List.mem_cons_of_mem _ hmem, hok', horig⟩
      | none =>
        rw [hda] at h
        cases hb : basicN s n with
        | some b =>
          simp only [analyze_stock_with_fallback, hb, Option.map_some'] at h
          set rb := createStockResult s n b.current_price b.tech_score
            b.auction b.total_score with hrb
          have hcase : r ∈ acc ++ [rb] ∨
              r ∈ analysisLoop config useDeep deepA basicN rest (acc ++ [rb]) := by
            split at h
            · exact Or.inl h
            · exact Or.inr h
          have hfrom : r ∈ acc ++ [rb] → r ∈ acc ∨ ∃ s' n',
              (s', n') ∈ (s, n) :: rest ∧ isRiskyStock s' n' = false ∧
              originatesFrom deepA basicN s' n' r := by
            intro hacc
            rcases List.mem_append.mp hacc with hacc' | hs
            · exact Or.inl hacc'
            · have : r = rb := by simpa using hs
              exact Or.inr ⟨s, n, List.mem_cons_self _ _, hok,
                Or.inr ⟨b, hb, this.trans hrb⟩⟩
          rcases hcase with hacc | hrec
          · exact hfrom hacc
          · rcases ih (acc ++ [rb]) r hrec with hacc | ⟨s', n', hmem, hok', horig⟩
            · exact hfrom hacc
            · exact Or.inr ⟨s', n', List.mem_cons_of_mem _ hmem, hok', horig⟩
        | none =>
          simp only [analyze_stock_with_fallback, hb, Option.map_none'] at h
          have hcase : r ∈ acc ∨
              r ∈ analysisLoop config useDeep deepA basicN rest acc := by
            split at h
            · exact Or.inl h
            · exact Or.inr h
          rcases hcase with hacc | hrec
          · exact Or.inl hacc
          · rcases ih acc r hrec with hacc | ⟨s', n', hmem, hok', horig⟩
            · exact Or.inl hacc
            · exact Or.inr ⟨s', n', List.mem_cons_of_mem _ hmem, hok', horig⟩

end OptimizedStockAnalyzer

/-- C9 amended: every recommendation in the report stems from a stock-pool
entry that passed the `_is_risky_stock` check and keeps that entry's symbol
(so its code is never in the delisting blacklist); provided the deep
analyzer's reported `code_name` for a screened symbol is itself free of risk
keywords, `_is_risky_stock` is `False` on every recommendation's own
symbol/name — basic-path recommendations carry the checked name verbatim,
deep-path ones take their name from the deep report. -/
theorem C9_amended_risk_filter
    (config : OptimizedStockAnalyzer.StrategyConfig) (useDeep : Bool)
    (deepA : String → Option OptimizedStockAnalyzer.DeepResult)
    (basicN : String → String → Option OptimizedStockAnalyzer.BasicNums)
    (pool : List (String × String))
    (H : ∀ s dr, deepA s = some dr →
      OptimizedStockAnalyzer.isRiskyStock s dr.code_name = false) :
    (∀ r ∈ OptimizedStockAnalyzer.finalRecommendations config useDeep deepA
        basicN pool,
      OptimizedStockAnalyzer.isRiskyStock r.symbol r.stock_name = false ∧
      ∃ n, (r.symbol, n) ∈ pool ∧
        OptimizedStockAnalyzer.isRiskyStock r.symbol n = false) ∧
    (∀ rep, OptimizedStockAnalyzer.generateOptimizedReport config useDeep
        deepA basicN pool = some rep →
      rep.recommendations =
        OptimizedStockAnalyzer.finalRecommendations config useDeep deepA
          basicN pool) := by
  constructor
  · intro r hr
    have hloop : r ∈ OptimizedStockAnalyzer.analysisLoop config useDeep deepA
        basicN pool [] := by
      have h1 := List.mem_of_mem_take hr
      exact List.mem_mergeSort.mp h1
    rcases OptimizedStockAnalyzer.analysisLoop_mem config useDeep deepA basicN
        pool [] r hloop with hnil | ⟨s, n, hmem, hok, horig⟩
    · exact absurd hnil (List.not_mem_nil r)
    · rcases horig with ⟨dr, hdr, hr'⟩ | ⟨b, hb, hr'⟩
      · have hsym : r.symbol = s := by
          rw [hr']; rfl
        have hname : r.stock_name = dr.code_name := by
          rw [hr']; rfl
        refine ⟨?_, ⟨n, ?_, ?_⟩⟩
        · rw [hsym, hname]
          exact H s dr hdr
        · rw [hsym]; exact hmem
        · rw [hsym]; exact hok
      · have hsym : r.symbol = s := by
          rw [hr']; rfl
        have hname : r.stock_name = n := by
          rw [hr']; rfl
        refine ⟨?_, ⟨n, ?_, ?_⟩⟩
        · rw [hsym, hname]; exact hok
        · rw [hsym]; exact hmem
        · rw [hsym]; exact hok
  · intro rep h
    rw [OptimizedStockAnalyzer.generateOptimizedReport] at h
    split at h
    · exact absurd h (by simp)
    · exact congrArg OptimizedStockAnalyzer.OptimizedReport.recommendations
        (Option.some.inj h).symm

/-- C9 counterexample: a pool stock that passes the risk check can be
recommended through the deep-analysis path with a `code_name` from the deep
report that contains a risk keyword — the resulting recommendation's own
(symbol, stock name) pair makes `_is_risky_stock` return `True`, so the
claim that `_is_risky_stock` is `False` for every recommendation in the
report is false. -/
theorem C9_counterexample :
    OptimizedStockAnalyzer.isRiskyStock "sz.002096" "南岭民爆" = false ∧
    OptimizedStockAnalyzer.finalRecommendations ⟨9/20, 15⟩ true
      (fun _ => some ⟨"ST南岭", 9/10, 7/10, 3/5, 10, 1, "gap_up", "high"⟩)
      (fun _ _ => none)
      [("sz.002096", "南岭民爆")] =
      [OptimizedStockAnalyzer.convertDeepAnalysis "sz.002096"
        ⟨"ST南岭", 9/10, 7/10, 3/5, 10, 1, "gap_up", "high"⟩] ∧
    OptimizedStockAnalyzer.isRiskyStock
      (OptimizedStockAnalyzer.convertDeepAnalysis "sz.002096"
        ⟨"ST南岭", 9/10, 7/10, 3/5, 10, 1, "gap_up", "high"⟩).symbol
      (OptimizedStockAnalyzer.convertDeepAnalysis "sz.002096"
        ⟨"ST南岭", 9/10, 7/10, 3/5, 10, 1, "gap_up", "high"⟩).stock_name =
      true := by
  refine ⟨rfl, ?_, rfl⟩
  have hloop : OptimizedStockAnalyzer.analysisLoop ⟨9/20, 15⟩ true
      (fun _ => some ⟨"ST南岭", 9/10, 7/10, 3/5, 10, 1, "gap_up", "high"⟩)
      (fun _ _ => none) [("sz.002096", "南岭民爆")] [] =
      [OptimizedStockAnalyzer.convertDeepAnalysis "sz.002096"
        ⟨"ST南岭", 9/10, 7/10, 3/5, 10, 1, "gap_up", "high"⟩] := by
    rw [OptimizedStockAnalyzer.analysisLoop]
    rw [if_neg (by decide)]
    have hda : OptimizedStockAnalyzer.deepAttempt ⟨9/20, 15⟩ true
        (fun _ => some ⟨"ST南岭", 9/10, 7/10, 3/5, 10, 1, "gap_up", "high"⟩)
        ([] : List OptimizedStockAnalyzer.Rec).length "sz.002096" =
        some (OptimizedStockAnalyzer.convertDeepAnalysis "sz.002096"
          ⟨"ST南岭", 9/10, 7/10, 3/5, 10, 1, "gap_up", "high"⟩) := by
      rw [OptimizedStockAnalyzer.deepAttempt,
        if_pos (by exact ⟨rfl, by norm_num⟩)]
      simp only
      rw [if_pos (by norm_num)]
    simp only [hda]
    rfl
  rw [OptimizedStockAnalyzer.finalRecommendations, hloop]
  have hsort := List.perm_singleton.mp
    (List.mergeSort_perm
      [OptimizedStockAnalyzer.convertDeepAnalysis "sz.002096"
        ⟨"ST南岭", 9/10, 7/10, 3/5, 10, 1, "gap_up", "high"⟩]
      (fun a b => decide (b.total_score ≤ a.total_score)))
  rw [hsort]
  rfl

/-- Concrete instance of the amended C9: with no deep reports at all and one
safe pool stock analyzed by the basic path, every recommendation is
non-risky and carries the checked pool entry. -/
theorem C9_amended_risk_filter_witness :
    (∀ s dr, (fun _ : String =>
        (none : Option OptimizedStockAnalyzer.DeepResult)) s = some dr →
      OptimizedStockAnalyzer.isRiskyStock s dr.code_name = false) ∧
    (∀ r ∈ OptimizedStockAnalyzer.finalRecommendations ⟨9/20, 15⟩ false
        (fun _ => none)
        (fun _ _ => some ⟨10, 7/10, ⟨3/5, 1, "gap_up", 1/2⟩, 7/10⟩)
        [("sz.002096", "南岭民爆")],
      OptimizedStockAnalyzer.isRiskyStock r.symbol r.stock_name = false ∧
      ∃ n, (r.symbol, n) ∈ [("sz.002096", "南岭民爆")] ∧
        OptimizedStockAnalyzer.isRiskyStock r.symbol n = false) :=
  ⟨fun _ dr h => Option.noConfusion h,
   (C9_amended_risk_filter ⟨9/20, 15⟩ false (fun _ => none)
      (fun _ _ => some ⟨10, 7/10, ⟨3/5, 1, "gap_up", 1/2⟩, 7/10⟩)
      [("sz.002096", "南岭民爆")]
      (fun _ dr h => Option.noConfusion h)).1⟩

end TraderAI
